import Mathlib

/-!
Verification of the position ledger / P&L / auto-close engine of the
trading simulator (`simulator.py`, class `TradingSimulator`).

Embedding conventions:
* Python floats are modelled as exact rationals (`ℚ`); prices, volumes and
  profits in the source are plain binary floats, here treated as exact
  numbers so that the algebraic claims are about the formulas the code
  computes.
* A Python position dict becomes the structure `Sim.Position`; the extra
  keys a dict acquires on close (`close_price`) become an `Option` field
  that is `none` while the position is open.  Wall-clock fields
  (`open_time`, `close_time`, `last_updated`, `comment`) carry no
  ledger information and are not part of the model.
* The mutable `TradingSimulator` object becomes the state record
  `Sim.SimState` threaded explicitly through each method.
* `save_positions` / `load_positions` act on a model of the JSON file:
  `save` produces the `simulator` section it writes, `load` consumes a
  `FileState` that is either a missing file, an unreadable/corrupt file
  (the `except` branch of the source), or parsed JSON whose optional keys
  mirror the `dict.get(key, default)` reads of the source.
-/

namespace Sim

/-- A position record, as built by `TradingSimulator.open_position` and
mutated by `update_position_prices` / `close_position`.  The Python dict
key `type` (the string `order_type.upper()`, compared against `'BUY'`)
is the field `type_`. -/
structure Position where
  ticket : Nat
  symbol : String
  type_ : String
  volume : ℚ
  open_price : ℚ
  current_price : ℚ
  sl : ℚ
  tp : ℚ
  profit : ℚ
  close_price : Option ℚ
deriving DecidableEq

/-- The mutable state of a `TradingSimulator` instance: `self.positions`,
`self.closed_positions`, `self.next_ticket`, `self.initial_balance`. -/
structure SimState where
  positions : List Position
  closed_positions : List Position
  next_ticket : Nat
  initial_balance : ℚ
deriving DecidableEq

/-- The state the constructor `__init__` establishes before calling
`load_positions`: empty collections, `next_ticket = 1000000`,
`initial_balance = 10000.0`. -/
def initState : SimState :=
  { positions := [], closed_positions := [], next_ticket := 1000000,
    initial_balance := 10000 }

/-- Result dicts of the form `{'success': ..., 'message'/'error': ...}`
returned by `close_position` and `modify_position`. -/
inductive ApiResult where
  | success (message : String)
  | failure (error : String)
deriving DecidableEq

/-- The `result['success']` field read by `check_tp_sl_hits`. -/
def ApiResult.isSuccess : ApiResult → Bool
  | .success _ => true
  | .failure _ => false

/-- The result dict of `open_position`:
`{'success': True, 'ticket': ..., 'price': ..., 'message': ...}`. -/
structure OpenResult where
  success : Bool
  ticket : Nat
  price : ℚ
  message : String
deriving DecidableEq

/-- `get_next_ticket`: returns `self.next_ticket` and increments it.
(The `save_positions` call is persistence only and does not change the
in-memory state.) -/
def get_next_ticket (s : SimState) : Nat × SimState :=
  (s.next_ticket, { s with next_ticket := s.next_ticket + 1 })

/-- Python `str.upper()` on the ASCII order-type strings the simulator
receives (`'BUY'`/`'SELL'` and their case variants): uppercase every
character. -/
def strUpper (s : String) : String := ⟨s.data.map Char.toUpper⟩

/-- The position dict built by `open_position`: `type` is
`order_type.upper()`, `current_price` starts at `open_price`, `profit`
at `0.0`. -/
def newPosition (ticket : Nat) (symbol order_type : String)
    (volume open_price sl tp : ℚ) : Position :=
  { ticket := ticket, symbol := symbol, type_ := strUpper order_type,
    volume := volume, open_price := open_price,
    current_price := open_price, sl := sl, tp := tp, profit := 0,
    close_price := none }

/-- `open_position(symbol, order_type, volume, open_price, sl=0, tp=0)`:
allocates a ticket, appends a new open position with
`current_price = open_price` and `profit = 0.0`, returns the success
dict.  The source performs no validation of `volume` (or any other
argument). -/
def open_position (s : SimState) (symbol : String) (order_type : String)
    (volume open_price sl tp : ℚ) : SimState × OpenResult :=
  let (ticket, s₁) := get_next_ticket s
  let position := newPosition ticket symbol order_type volume open_price sl tp
  ({ s₁ with positions := s₁.positions ++ [position] },
   { success := true, ticket := ticket, price := open_price,
     message := "Simulated order executed successfully" })

/-- The loop body of `update_position_prices`: for a position of the
given symbol, set `current_price` and recompute `profit` with
`(price_diff / tick_size) * volume * tick_value` when `tick_size > 0`,
falling back to `price_diff * volume * contract_size` otherwise. -/
def updateOne (symbol : String) (current_price contract_size tick_value tick_size : ℚ)
    (p : Position) : Position :=
  if p.symbol = symbol then
    let price_diff : ℚ :=
      if p.type_ = "BUY" then current_price - p.open_price
      else p.open_price - current_price
    { p with current_price := current_price,
             profit :=
               if 0 < tick_size then (price_diff / tick_size) * p.volume * tick_value
               else price_diff * p.volume * contract_size }
  else p

/-- `update_position_prices(symbol, current_price, contract_size=100000,
tick_value=1.0, tick_size=0.00001)`: applies `updateOne` to every open
position. -/
def update_position_prices (s : SimState) (symbol : String)
    (current_price contract_size tick_value tick_size : ℚ) : SimState :=
  { s with positions :=
      s.positions.map (updateOne symbol current_price contract_size tick_value tick_size) }

/-- The search-and-pop loop at the top of `close_position`: find the
first position with the given ticket, remove it, and return it together
with the remaining list; `none` when no position matches. -/
def popTicket (ticket : Nat) : List Position → Option (Position × List Position)
  | [] => none
  | p :: ps =>
      if p.ticket = ticket then some (p, ps)
      else (popTicket ticket ps).map (fun r => (r.1, p :: r.2))

/-- The final-profit computation of `close_position`: prefer
`(price_diff / tick_size) * volume * tick_value` when `tick_size` and
`tick_value` are supplied and `tick_size > 0`; otherwise fall back to
`price_diff * volume * contract_size`, and as a last resort to a
standard-lot contract size of `100000`. -/
def closeProfit (p : Position) (close_price : ℚ)
    (tick_size tick_value contract_size : Option ℚ) : ℚ :=
  let price_diff : ℚ :=
    if p.type_ = "BUY" then close_price - p.open_price
    else p.open_price - close_price
  if tick_size.isSome ∧ tick_value.isSome ∧ 0 < tick_size.getD 0 then
    (price_diff / tick_size.getD 0) * p.volume * tick_value.getD 0
  else
    match contract_size with
    | some cs => price_diff * p.volume * cs
    | none => price_diff * p.volume * 100000

/-- The mutation `close_position` applies to the popped position before
appending it to the closed history: final `current_price`,
`close_price`, and profit. -/
def closedAt (p : Position) (close_price : ℚ)
    (tick_size tick_value contract_size : Option ℚ) : Position :=
  { p with current_price := close_price, close_price := some close_price,
           profit := closeProfit p close_price tick_size tick_value contract_size }

/-- `close_position(ticket, close_price, tick_size=None, tick_value=None,
contract_size=None)`: pops the first position with the given ticket
(`{'success': False, 'error': 'Position not found'}` when absent), sets
its final prices and profit, and appends it to `closed_positions`. -/
def close_position (s : SimState) (ticket : Nat) (close_price : ℚ)
    (tick_size tick_value contract_size : Option ℚ) : SimState × ApiResult :=
  match popTicket ticket s.positions with
  | none => (s, .failure "Position not found")
  | some (p, rest) =>
      ({ s with positions := rest,
                closed_positions := s.closed_positions ++
                  [closedAt p close_price tick_size tick_value contract_size] },
       .success "Simulated position closed")

/-- The update applied by `modify_position` to the matching position:
`sl`/`tp` are overwritten only when supplied (`is not None`). -/
def modifyOne (sl tp : Option ℚ) (p : Position) : Position :=
  { p with sl := sl.getD p.sl, tp := tp.getD p.tp }

/-- The search loop of `modify_position`: update the first position with
the given ticket, `none` when no position matches. -/
def modifyFirst (ticket : Nat) (sl tp : Option ℚ) :
    List Position → Option (List Position)
  | [] => none
  | p :: ps =>
      if p.ticket = ticket then some (modifyOne sl tp p :: ps)
      else (modifyFirst ticket sl tp ps).map (fun r => p :: r)

/-- `modify_position(ticket, sl=None, tp=None)`. -/
def modify_position (s : SimState) (ticket : Nat) (sl tp : Option ℚ) :
    SimState × ApiResult :=
  match modifyFirst ticket sl tp s.positions with
  | none => (s, .failure "Position not found")
  | some ps => ({ s with positions := ps }, .success "Simulated position modified")

/-- `reset_simulator(initial_balance=10000.0)`: clears both collections,
resets the ticket counter to `1000000`, sets the balance. -/
def reset_simulator (initial_balance : ℚ) : SimState :=
  { positions := [], closed_positions := [], next_ticket := 1000000,
    initial_balance := initial_balance }

/-- Banker's rounding to an integer, the rounding Python's builtin
`round` performs (exact decimal semantics; the binary-float
representation of the source's values is abstracted to exact rationals
throughout this development). -/
def roundHalfEven (q : ℚ) : ℤ :=
  if q - ⌊q⌋ < 1/2 then ⌊q⌋
  else if 1/2 < q - ⌊q⌋ then ⌊q⌋ + 1
  else if ⌊q⌋ % 2 = 0 then ⌊q⌋ else ⌊q⌋ + 1

/-- Python `round(q, 2)`. -/
def round2 (q : ℚ) : ℚ := (roundHalfEven (q * 100) : ℚ) / 100

/-- The dict returned by `get_account_summary`. -/
structure AccountSummary where
  balance : ℚ
  equity : ℚ
  profit : ℚ
  margin : ℚ
  free_margin : ℚ
  leverage : Nat
  currency : String
deriving DecidableEq

/-- `get_account_summary`: derives balance/equity/profit from the two
position collections and `initial_balance`, rounding each reported
number to two decimals; `margin` is hard-coded `0.0`, `free_margin` is
the (rounded) equity, `leverage = 100`, `currency = 'USD'`. -/
def get_account_summary (s : SimState) : AccountSummary :=
  let total_profit : ℚ := (s.positions.map Position.profit).sum
  let closed_profit : ℚ := (s.closed_positions.map Position.profit).sum
  let balance : ℚ := s.initial_balance + closed_profit
  let equity : ℚ := balance + total_profit
  { balance := round2 balance, equity := round2 equity,
    profit := round2 total_profit, margin := 0,
    free_margin := round2 equity, leverage := 100, currency := "USD" }

/-- The `{tick_size, tick_value, contract_size}` info dict
`check_tp_sl_hits` looks up per symbol; each key is read with
`dict.get`, hence optional. -/
structure SymbolInfo where
  tick_size : Option ℚ
  tick_value : Option ℚ
  contract_size : Option ℚ
deriving DecidableEq

/-- The empty info dict `{}` used when a symbol is absent from the map
(or no map was supplied). -/
def SymbolInfo.empty : SymbolInfo :=
  { tick_size := none, tick_value := none, contract_size := none }

/-- An entry of the `closed_tickets` list returned by
`check_tp_sl_hits`: `{'ticket': ..., 'reason': ...}`. -/
structure ClosedTicket where
  ticket : Nat
  reason : String
deriving DecidableEq

/-- A tuple of the `positions_to_close` list built by the first loop of
`check_tp_sl_hits`. -/
structure CloseItem where
  ticket : Nat
  price : ℚ
  reason : String
  tick_size : Option ℚ
  tick_value : Option ℚ
  contract_size : Option ℚ
deriving DecidableEq

/-- The threshold test of `check_tp_sl_hits` for one position: the
take-profit branch is tested first, the stop-loss branch only as
`elif`; thresholds of `0` (or below) mean unset and never trigger.
Returns the `close_reason` when the position should close. -/
def shouldCloseReason (p : Position) : Option String :=
  if p.type_ = "BUY" then
    if 0 < p.tp ∧ p.tp ≤ p.current_price then some "Take Profit"
    else if 0 < p.sl ∧ p.current_price ≤ p.sl then some "Stop Loss"
    else none
  else
    if 0 < p.tp ∧ p.current_price ≤ p.tp then some "Take Profit"
    else if 0 < p.sl ∧ p.sl ≤ p.current_price then some "Stop Loss"
    else none

/-- The body of the first loop of `check_tp_sl_hits` for one position:
when its TP or SL is hit, the tuple
`(ticket, current_price, reason, tick_size, tick_value, contract_size)`
appended to `positions_to_close`, with the symbol looked up in the
optional `symbol_info_map` (`{}` when absent). -/
def hitItem (symbol_info_map : Option (List (String × SymbolInfo))) (p : Position) :
    Option CloseItem :=
  (shouldCloseReason p).map fun reason =>
    let info := ((symbol_info_map.getD []).lookup p.symbol).getD SymbolInfo.empty
    { ticket := p.ticket, price := p.current_price, reason := reason,
      tick_size := info.tick_size, tick_value := info.tick_value,
      contract_size := info.contract_size }

/-- The first loop of `check_tp_sl_hits`: the `positions_to_close`
list. -/
def collectHits (s : SimState) (symbol_info_map : Option (List (String × SymbolInfo))) :
    List CloseItem :=
  s.positions.filterMap (hitItem symbol_info_map)

/-- The second loop of `check_tp_sl_hits`: close each collected
position and record `{'ticket': ..., 'reason': ...}` for the closes that
report success. -/
def closeMany (s : SimState) (acc : List ClosedTicket) :
    List CloseItem → SimState × List ClosedTicket
  | [] => (s, acc)
  | i :: rest =>
      let r := close_position s i.ticket i.price i.tick_size i.tick_value i.contract_size
      closeMany r.1 (if r.2.isSuccess then acc ++ [{ ticket := i.ticket, reason := i.reason }] else acc) rest

/-- `check_tp_sl_hits(symbol_info_map=None)`: scan all open positions
for TP/SL hits, close the hits, and return the list of
`{ticket, reason}` records. -/
def check_tp_sl_hits (s : SimState) (symbol_info_map : Option (List (String × SymbolInfo))) :
    SimState × List ClosedTicket :=
  closeMany s [] (collectHits s symbol_info_map)

/-- The `simulator` section written by `save_positions` (minus the
wall-clock `last_updated` field, which carries no ledger state). -/
structure SimulatorRecord where
  positions : List Position
  closed_positions : List Position
  next_ticket : Nat
  initial_balance : ℚ
deriving DecidableEq

/-- `save_positions`: serializes the whole ledger aggregate into the
`simulator` section of the settings file. -/
def save_positions (s : SimState) : SimulatorRecord :=
  { positions := s.positions, closed_positions := s.closed_positions,
    next_ticket := s.next_ticket, initial_balance := s.initial_balance }

/-- A parsed `simulator` section as `load_positions` reads it: each key
is accessed with `dict.get(key, default)`, hence optional. -/
structure StoredSimulator where
  positions : Option (List Position)
  closed_positions : Option (List Position)
  next_ticket : Option Nat
  initial_balance : Option ℚ
deriving DecidableEq

/-- A freshly saved record, parsed back: every key present. -/
def recordToStored (r : SimulatorRecord) : StoredSimulator :=
  { positions := some r.positions, closed_positions := some r.closed_positions,
    next_ticket := some r.next_ticket, initial_balance := some r.initial_balance }

/-- What `load_positions` can find on disk: no file at all
(`os.path.exists` false), an existing but unreadable/corrupt file (the
`except` branch: `json.load` or the subsequent reads raise), or parsed
JSON whose `simulator` key may be absent (`data.get('simulator', {})`). -/
inductive FileState where
  | missing
  | corrupt
  | good (simulator : Option StoredSimulator)
deriving DecidableEq

/-- `load_positions`, acting on the current in-memory state `s` (the
`self` fields assigned by `__init__` before the call): a missing file
leaves the state alone; good JSON replaces every aggregate field,
defaulting absent keys (`positions`/`closed_positions` to `[]`,
`next_ticket` to `1000000`, `initial_balance` to `10000.0`); a corrupt
file is caught, logged, and handled by clearing the two position lists
— no error is propagated to the caller. -/
def load_positions (s : SimState) (file : FileState) : SimState :=
  match file with
  | .missing => s
  | .corrupt => { s with positions := [], closed_positions := [] }
  | .good simulator =>
      let sd := simulator.getD
        { positions := none, closed_positions := none,
          next_ticket := none, initial_balance := none }
      { positions := sd.positions.getD [],
        closed_positions := sd.closed_positions.getD [],
        next_ticket := sd.next_ticket.getD 1000000,
        initial_balance := sd.initial_balance.getD 10000 }

/-- One save immediately followed by one load, the round-trip of the
Persistence Adapter: the file then holds exactly the record
`save_positions` wrote. -/
def saveLoad (s : SimState) : SimState :=
  load_positions s (FileState.good (some (recordToStored (save_positions s))))

/-- The ledger API calls a client (or the monitor) can issue against a
running simulator, for stating reachability of ledger states. -/
inductive Op where
  | openPos (symbol order_type : String) (volume open_price sl tp : ℚ)
  | updatePrices (symbol : String) (current_price contract_size tick_value tick_size : ℚ)
  | closePos (ticket : Nat) (close_price : ℚ) (tick_size tick_value contract_size : Option ℚ)
  | modifyPos (ticket : Nat) (sl tp : Option ℚ)
  | reset (initial_balance : ℚ)
  | checkTpSl (symbol_info_map : Option (List (String × SymbolInfo)))
deriving DecidableEq

/-- The state transition of one API call. -/
def applyOp (s : SimState) : Op → SimState
  | .openPos symbol order_type volume open_price sl tp =>
      (open_position s symbol order_type volume open_price sl tp).1
  | .updatePrices symbol current_price contract_size tick_value tick_size =>
      update_position_prices s symbol current_price contract_size tick_value tick_size
  | .closePos ticket close_price tick_size tick_value contract_size =>
      (close_position s ticket close_price tick_size tick_value contract_size).1
  | .modifyPos ticket sl tp => (modify_position s ticket sl tp).1
  | .reset initial_balance => reset_simulator initial_balance
  | .checkTpSl symbol_info_map => (check_tp_sl_hits s symbol_info_map).1

/-- Run a sequence of API calls. -/
def runOps (s : SimState) (ops : List Op) : SimState := ops.foldl applyOp s

/-- A ledger state is reachable when some sequence of API calls produces
it from the constructor's initial state. -/
def Reachable (s : SimState) : Prop := ∃ ops : List Op, runOps initState ops = s

/-- `True` exactly for the `reset` call. -/
def Op.isReset : Op → Bool
  | .reset _ => true
  | _ => false

/-- The ticket numbers of a list of positions. -/
def ticketsOf (l : List Position) : List Nat := l.map Position.ticket

/-- The ledger invariant: all tickets (open and closed together) are
pairwise distinct and below the allocation counter. -/
def WellFormed (s : SimState) : Prop :=
  (ticketsOf s.positions ++ ticketsOf s.closed_positions).Nodup ∧
  ∀ t ∈ ticketsOf s.positions ++ ticketsOf s.closed_positions, t < s.next_ticket

instance : DecidablePred WellFormed := fun s => by
  unfold WellFormed; infer_instance

/-- The tickets handed out by the `open` calls of a run, in order. -/
def ticketsIssued : SimState → List Op → List Nat
  | _, [] => []
  | s, op :: ops =>
      match op with
      | .openPos .. => s.next_ticket :: ticketsIssued (applyOp s op) ops
      | _ => ticketsIssued (applyOp s op) ops

/-- A sample run for the ledger invariant: one position opened. -/
def opsC1 : List Op := [Op.openPos "EURUSD" "BUY" 1 (11/10) 0 0]

/-- The state reached by `opsC1`. -/
def stateC1 : SimState := runOps initState opsC1

/-- A sample run for ticket monotonicity: open, close, open again. -/
def opsC2 : List Op :=
  [Op.openPos "EURUSD" "BUY" 1 (11/10) 0 0,
   Op.closePos 1000000 (12/10) none none none,
   Op.openPos "USDJPY" "SELL" 2 150 0 0]

/-- The tie-break example position of the spec: `side=BUY`,
`open_price=1.1000`, `tp=1.1050`, `sl=1.1080`, current price `1.1090`
(crossing both thresholds). -/
def posC3 : Position :=
  { ticket := 1000000, symbol := "EURUSD", type_ := "BUY", volume := 1,
    open_price := 11/10, current_price := 1109/1000, sl := 1108/1000,
    tp := 1105/1000, profit := 0, close_price := none }

/-- A ledger holding exactly the tie-break example position. -/
def stateC3 : SimState :=
  { positions := [posC3], closed_positions := [], next_ticket := 1000001,
    initial_balance := 10000 }

/-- A BUY position opened at price 1 for the profit-sign witness. -/
def posC4 : Position :=
  { ticket := 1, symbol := "EURUSD", type_ := "BUY", volume := 1,
    open_price := 1, current_price := 1, sl := 0, tp := 0, profit := 0,
    close_price := none }

/-- A ledger holding exactly `posC4`. -/
def stateC4 : SimState :=
  { positions := [posC4], closed_positions := [], next_ticket := 2,
    initial_balance := 0 }

/-- A run producing a closed position whose profit (`0.006`) does not
survive the 2-decimal rounding of `get_account_summary`. -/
def opsC7 : List Op :=
  [Op.openPos "X" "BUY" (3/500) 1 0 0,
   Op.closePos 1000000 2 (some 1) (some 1) none]

/-- The state reached by `opsC7`: one closed position with profit
`((2-1)/1) * (3/500) * 1 = 3/500`. -/
def stateC7 : SimState := runOps initState opsC7

/-! ### Helper lemmas about the search-and-pop loop -/

theorem ticketsOf_append (a b : List Position) :
    ticketsOf (a ++ b) = ticketsOf a ++ ticketsOf b := by
  simp [ticketsOf]

theorem mem_ticketsOf {t : Nat} {l : List Position} :
    t ∈ ticketsOf l ↔ ∃ p ∈ l, p.ticket = t := by
  simp [ticketsOf]

theorem popTicket_eq_none {t : Nat} {l : List Position} :
    popTicket t l = none ↔ ∀ p ∈ l, p.ticket ≠ t := by
  induction l with
  | nil => simp [popTicket]
  | cons q qs ih =>
      by_cases hq : q.ticket = t
      · simp [popTicket, hq]
      · simp [popTicket, hq, Option.map_eq_none', ih]

theorem popTicket_isSome {t : Nat} {l : List Position} (h : t ∈ ticketsOf l) :
    ∃ p rest, popTicket t l = some (p, rest) := by
  rcases he : popTicket t l with _ | ⟨p, rest⟩
  · rcases mem_ticketsOf.mp h with ⟨p, hp, hpt⟩
    exact absurd hpt (popTicket_eq_none.mp he p hp)
  · exact ⟨p, rest, rfl⟩

theorem popTicket_some_spec {t : Nat} {l : List Position} {p : Position}
    {rest : List Position} (h : popTicket t l = some (p, rest)) :
    p.ticket = t ∧ l.Perm (p :: rest) := by
  induction l generalizing rest with
  | nil => simp [popTicket] at h
  | cons q qs ih =>
      by_cases hq : q.ticket = t
      · simp only [popTicket, if_pos hq, Option.some.injEq, Prod.mk.injEq] at h
        obtain ⟨h1, h2⟩ := h
        subst h1; subst h2
        exact ⟨hq, List.Perm.refl _⟩
      · simp only [popTicket, if_neg hq, Option.map_eq_some'] at h
        obtain ⟨⟨p₁, rest₁⟩, hrec, heq⟩ := h
        obtain ⟨he1, he2⟩ := Prod.mk.injEq .. ▸ heq
        subst he1; subst he2
        obtain ⟨hpt, hperm⟩ := ih hrec
        refine ⟨hpt, ?_⟩
        exact ((hperm.cons q).trans (List.Perm.swap _ q rest₁))

theorem popTicket_some_sublist {t : Nat} {l : List Position} {p : Position}
    {rest : List Position} (h : popTicket t l = some (p, rest)) :
    rest.Sublist l := by
  induction l generalizing rest with
  | nil => simp [popTicket] at h
  | cons q qs ih =>
      by_cases hq : q.ticket = t
      · simp only [popTicket, if_pos hq, Option.some.injEq, Prod.mk.injEq] at h
        obtain ⟨_, h2⟩ := h
        subst h2
        exact (List.Sublist.refl qs).cons q
      · simp only [popTicket, if_neg hq, Option.map_eq_some'] at h
        obtain ⟨⟨p₁, rest₁⟩, hrec, hvq⟩ := h
        obtain ⟨he1, he2⟩ := Prod.mk.injEq .. ▸ hvq
        subst he1; subst he2
        exact (ih hrec).cons₂ q

/-! ### Characterization of `close_position` -/

theorem close_position_not_found {s : SimState} {t : Nat} (cp : ℚ)
    (ts tv cs : Option ℚ) (h : t ∉ ticketsOf s.positions) :
    close_position s t cp ts tv cs = (s, .failure "Position not found") := by
  have hn : popTicket t s.positions = none :=
    popTicket_eq_none.mpr fun p hp hpt => h (mem_ticketsOf.mpr ⟨p, hp, hpt⟩)
  simp [close_position, hn]

theorem close_position_found {s : SimState} {t : Nat} (cp : ℚ)
    (ts tv cs : Option ℚ) (h : t ∈ ticketsOf s.positions) :
    ∃ p rest, popTicket t s.positions = some (p, rest) ∧ p.ticket = t ∧
      s.positions.Perm (p :: rest) ∧ rest.Sublist s.positions ∧
      close_position s t cp ts tv cs =
        ({ s with positions := rest,
                  closed_positions := s.closed_positions ++ [closedAt p cp ts tv cs] },
         .success "Simulated position closed") := by
  obtain ⟨p, rest, he⟩ := popTicket_isSome h
  obtain ⟨hpt, hperm⟩ := popTicket_some_spec he
  exact ⟨p, rest, he, hpt, hperm, popTicket_some_sublist he, by simp [close_position, he]⟩

/-! ### Preservation of the ledger invariant -/

theorem wellFormed_of_perm {s s' : SimState}
    (hperm : (ticketsOf s'.positions ++ ticketsOf s'.closed_positions).Perm
      (ticketsOf s.positions ++ ticketsOf s.closed_positions))
    (hnext : s'.next_ticket = s.next_ticket) (h : WellFormed s) : WellFormed s' := by
  obtain ⟨hnd, hlt⟩ := h
  exact ⟨hperm.symm.nodup hnd, fun t ht => hnext ▸ hlt t (hperm.mem_iff.mp ht)⟩

theorem updateOne_ticket (symbol : String) (cp csz tv ts : ℚ) (p : Position) :
    (updateOne symbol cp csz tv ts p).ticket = p.ticket := by
  unfold updateOne; split <;> rfl

theorem modifyOne_ticket (sl tp : Option ℚ) (p : Position) :
    (modifyOne sl tp p).ticket = p.ticket := rfl

theorem modifyFirst_tickets {t : Nat} {sl tp : Option ℚ} {l l' : List Position}
    (h : modifyFirst t sl tp l = some l') : ticketsOf l' = ticketsOf l := by
  induction l generalizing l' with
  | nil => simp [modifyFirst] at h
  | cons q qs ih =>
      by_cases hq : q.ticket = t
      · simp only [modifyFirst, if_pos hq, Option.some.injEq] at h
        subst h
        simp [ticketsOf, modifyOne_ticket]
      · simp only [modifyFirst, if_neg hq, Option.map_eq_some'] at h
        obtain ⟨r, hrec, hr⟩ := h
        subst hr
        simp [ticketsOf] at ih ⊢
        exact ih hrec

theorem wf_append_fresh (s : SimState) (P : Position) (hP : P.ticket = s.next_ticket)
    (h : WellFormed s) :
    WellFormed { s with positions := s.positions ++ [P],
                        next_ticket := s.next_ticket + 1 } := by
  obtain ⟨hnd, hlt⟩ := h
  have e1 : ticketsOf (s.positions ++ [P]) ++ ticketsOf s.closed_positions =
      ticketsOf s.positions ++ s.next_ticket :: ticketsOf s.closed_positions := by
    simp [ticketsOf, hP]
  unfold WellFormed
  constructor
  · show (ticketsOf (s.positions ++ [P]) ++ ticketsOf s.closed_positions).Nodup
    rw [e1]
    exact List.perm_middle.symm.nodup
      (List.nodup_cons.mpr ⟨fun hm => lt_irrefl _ (hlt _ hm), hnd⟩)
  · show ∀ t ∈ ticketsOf (s.positions ++ [P]) ++ ticketsOf s.closed_positions,
        t < s.next_ticket + 1
    rw [e1]
    intro t ht
    rcases List.mem_append.mp ht with h1 | h2
    · exact Nat.lt_succ_of_lt (hlt t (List.mem_append.mpr (.inl h1)))
    · rcases List.mem_cons.mp h2 with rfl | h3
      · exact Nat.lt_succ_self _
      · exact Nat.lt_succ_of_lt (hlt t (List.mem_append.mpr (.inr h3)))

theorem wf_open (s : SimState) (symbol order_type : String)
    (volume open_price sl tp : ℚ) (h : WellFormed s) :
    WellFormed (open_position s symbol order_type volume open_price sl tp).1 := by
  exact wf_append_fresh s
    (newPosition s.next_ticket symbol order_type volume open_price sl tp) rfl h

theorem wf_move (s : SimState) (p : Position) (rest : List Position) (p' : Position)
    (hperm : s.positions.Perm (p :: rest)) (hpt : p'.ticket = p.ticket)
    (h : WellFormed s) :
    WellFormed { s with positions := rest,
                        closed_positions := s.closed_positions ++ [p'] } := by
  obtain ⟨hnd, hlt⟩ := h
  have htpos : (ticketsOf s.positions).Perm (p.ticket :: ticketsOf rest) := by
    simpa [ticketsOf] using hperm.map Position.ticket
  have e1 : ticketsOf rest ++ ticketsOf (s.closed_positions ++ [p']) =
      (ticketsOf rest ++ ticketsOf s.closed_positions) ++ [p.ticket] := by
    simp [ticketsOf, hpt]
  have hp2 : (ticketsOf rest ++ ticketsOf (s.closed_positions ++ [p'])).Perm
      (ticketsOf s.positions ++ ticketsOf s.closed_positions) := by
    rw [e1]
    exact (List.perm_append_singleton _ _).trans (htpos.symm.append_right _)
  unfold WellFormed
  constructor
  · show (ticketsOf rest ++ ticketsOf (s.closed_positions ++ [p'])).Nodup
    exact hp2.symm.nodup hnd
  · show ∀ t ∈ ticketsOf rest ++ ticketsOf (s.closed_positions ++ [p']),
        t < s.next_ticket
    intro t ht
    exact hlt t (hp2.subset ht)

theorem wf_close (s : SimState) (t : Nat) (cp : ℚ) (ts tv cs : Option ℚ)
    (h : WellFormed s) : WellFormed (close_position s t cp ts tv cs).1 := by
  rcases hpop : popTicket t s.positions with _ | ⟨p, rest⟩
  · simpa [close_position, hpop] using h
  · obtain ⟨_, hperm⟩ := popTicket_some_spec hpop
    simp only [close_position, hpop]
    exact wf_move s p rest _ hperm rfl h

theorem wf_update (s : SimState) (symbol : String) (cp csz tv ts : ℚ)
    (h : WellFormed s) :
    WellFormed (update_position_prices s symbol cp csz tv ts) := by
  obtain ⟨hnd, hlt⟩ := h
  have e : ticketsOf (s.positions.map (updateOne symbol cp csz tv ts)) =
      ticketsOf s.positions := by
    simp only [ticketsOf, List.map_map]
    exact List.map_congr_left fun p _ => updateOne_ticket symbol cp csz tv ts p
  unfold WellFormed
  constructor
  · show (ticketsOf (s.positions.map (updateOne symbol cp csz tv ts)) ++
        ticketsOf s.closed_positions).Nodup
    rw [e]; exact hnd
  · show ∀ t ∈ ticketsOf (s.positions.map (updateOne symbol cp csz tv ts)) ++
        ticketsOf s.closed_positions, t < s.next_ticket
    rw [e]; exact hlt

theorem wf_modify (s : SimState) (t : Nat) (sl tp : Option ℚ) (h : WellFormed s) :
    WellFormed (modify_position s t sl tp).1 := by
  rcases he : modifyFirst t sl tp s.positions with _ | l'
  · simp only [modify_position, he]
    exact h
  · obtain ⟨hnd, hlt⟩ := h
    simp only [modify_position, he]
    unfold WellFormed
    constructor
    · show (ticketsOf l' ++ ticketsOf s.closed_positions).Nodup
      rw [modifyFirst_tickets he]; exact hnd
    · show ∀ x ∈ ticketsOf l' ++ ticketsOf s.closed_positions, x < s.next_ticket
      rw [modifyFirst_tickets he]; exact hlt

theorem wf_reset (b : ℚ) : WellFormed (reset_simulator b) := by
  constructor <;> simp [reset_simulator, ticketsOf, WellFormed]

theorem wf_closeMany (items : List CloseItem) (s : SimState) (acc : List ClosedTicket)
    (h : WellFormed s) : WellFormed (closeMany s acc items).1 := by
  induction items generalizing s acc with
  | nil => exact h
  | cons i rest ih =>
      simp only [closeMany]
      exact ih _ _ (wf_close s i.ticket i.price i.tick_size i.tick_value i.contract_size h)

theorem wf_check (s : SimState) (m : Option (List (String × SymbolInfo)))
    (h : WellFormed s) : WellFormed (check_tp_sl_hits s m).1 :=
  wf_closeMany _ _ _ h

theorem wf_applyOp (s : SimState) (op : Op) (h : WellFormed s) :
    WellFormed (applyOp s op) := by
  cases op with
  | openPos symbol order_type volume open_price sl tp =>
      exact wf_open s symbol order_type volume open_price sl tp h
  | updatePrices symbol cp csz tv ts => exact wf_update s symbol cp csz tv ts h
  | closePos t cp ts tv cs => exact wf_close s t cp ts tv cs h
  | modifyPos t sl tp => exact wf_modify s t sl tp h
  | reset b => exact wf_reset b
  | checkTpSl m => exact wf_check s m h

theorem wf_initState : WellFormed initState := by
  constructor <;> simp [initState, ticketsOf, WellFormed]

theorem wf_runOps (ops : List Op) (s : SimState) (h : WellFormed s) :
    WellFormed (runOps s ops) := by
  induction ops generalizing s with
  | nil => exact h
  | cons op rest ih => exact ih _ (wf_applyOp s op h)

theorem reachable_wellFormed {s : SimState} (h : Reachable s) : WellFormed s := by
  obtain ⟨ops, hops⟩ := h
  exact hops ▸ wf_runOps ops initState wf_initState

/-! ### The ticket counter across API calls -/

theorem next_close (s : SimState) (t : Nat) (cp : ℚ) (ts tv cs : Option ℚ) :
    (close_position s t cp ts tv cs).1.next_ticket = s.next_ticket := by
  rcases hpop : popTicket t s.positions with _ | ⟨p, rest⟩ <;>
    simp [close_position, hpop]

theorem next_modify (s : SimState) (t : Nat) (sl tp : Option ℚ) :
    (modify_position s t sl tp).1.next_ticket = s.next_ticket := by
  rcases he : modifyFirst t sl tp s.positions with _ | l' <;>
    simp [modify_position, he]

theorem next_closeMany (items : List CloseItem) :
    ∀ (s : SimState) (acc : List ClosedTicket),
      (closeMany s acc items).1.next_ticket = s.next_ticket := by
  induction items with
  | nil => intro s acc; rfl
  | cons i rest ih =>
      intro s acc
      simp only [closeMany]
      rw [ih]
      exact next_close s i.ticket i.price i.tick_size i.tick_value i.contract_size

theorem next_applyOp_mono (s : SimState) (op : Op) (h : op.isReset = false) :
    s.next_ticket ≤ (applyOp s op).next_ticket := by
  cases op with
  | openPos a b c d e f => exact Nat.le_succ _
  | updatePrices a b c d e => exact le_of_eq rfl
  | closePos a b c d e => exact le_of_eq (next_close s a b c d e).symm
  | modifyPos a b c => exact le_of_eq (next_modify s a b c).symm
  | reset a => simp [Op.isReset] at h
  | checkTpSl a => exact le_of_eq (next_closeMany _ s []).symm

theorem ticketsIssued_lb (ops : List Op) :
    ∀ s : SimState, (∀ op ∈ ops, op.isReset = false) →
      ∀ t ∈ ticketsIssued s ops, s.next_ticket ≤ t := by
  induction ops with
  | nil => intro s _ t ht; simp [ticketsIssued] at ht
  | cons op rest ih =>
      intro s h t ht
      have hop : op.isReset = false := h op (by simp)
      have hrest : ∀ o ∈ rest, o.isReset = false := fun o ho => h o (by simp [ho])
      have hmono := next_applyOp_mono s op hop
      cases op with
      | openPos a b c d e f =>
          simp only [ticketsIssued] at ht
          rcases List.mem_cons.mp ht with rfl | h2
          · exact le_refl _
          · exact le_trans (le_trans hmono (le_refl _)) (ih _ hrest t h2)
      | updatePrices a b c d e =>
          exact le_trans hmono (ih _ hrest t (by simpa [ticketsIssued] using ht))
      | closePos a b c d e =>
          exact le_trans hmono (ih _ hrest t (by simpa [ticketsIssued] using ht))
      | modifyPos a b c =>
          exact le_trans hmono (ih _ hrest t (by simpa [ticketsIssued] using ht))
      | reset a => simp [Op.isReset] at hop
      | checkTpSl a =>
          exact le_trans hmono (ih _ hrest t (by simpa [ticketsIssued] using ht))

theorem ticketsIssued_pairwise (ops : List Op) :
    ∀ s : SimState, (∀ op ∈ ops, op.isReset = false) →
      (ticketsIssued s ops).Pairwise (· < ·) := by
  induction ops with
  | nil => intro s _; simp [ticketsIssued]
  | cons op rest ih =>
      intro s h
      have hop : op.isReset = false := h op (by simp)
      have hrest : ∀ o ∈ rest, o.isReset = false := fun o ho => h o (by simp [ho])
      cases op with
      | openPos a b c d e f =>
          simp only [ticketsIssued]
          refine List.pairwise_cons.mpr ⟨?_, ih _ hrest⟩
          intro t ht
          have h1 := ticketsIssued_lb rest _ hrest t ht
          have h2 : (applyOp s (Op.openPos a b c d e f)).next_ticket =
              s.next_ticket + 1 := rfl
          omega
      | updatePrices a b c d e => simpa [ticketsIssued] using ih _ hrest
      | closePos a b c d e => simpa [ticketsIssued] using ih _ hrest
      | modifyPos a b c => simpa [ticketsIssued] using ih _ hrest
      | reset a => simp [Op.isReset] at hop
      | checkTpSl a => simpa [ticketsIssued] using ih _ hrest

/-! ### The auto-close scan -/

theorem close_pos_sublist (s : SimState) (t : Nat) (cp : ℚ) (ts tv cs : Option ℚ) :
    (close_position s t cp ts tv cs).1.positions.Sublist s.positions := by
  rcases hpop : popTicket t s.positions with _ | ⟨p, rest⟩
  · simp [close_position, hpop]
  · simp only [close_position, hpop]
    exact popTicket_some_sublist hpop

theorem close_closed_mono (s : SimState) (t : Nat) (cp : ℚ) (ts tv cs : Option ℚ)
    {q : Position} (h : q ∈ s.closed_positions) :
    q ∈ (close_position s t cp ts tv cs).1.closed_positions := by
  rcases hpop : popTicket t s.positions with _ | ⟨p, rest⟩
  · simpa [close_position, hpop] using h
  · simp only [close_position, hpop]
    exact List.mem_append_left _ h

theorem closeMany_pos_sublist (items : List CloseItem) :
    ∀ (s : SimState) (acc : List ClosedTicket),
      (closeMany s acc items).1.positions.Sublist s.positions := by
  induction items with
  | nil => intro s acc; exact List.Sublist.refl _
  | cons i rest ih =>
      intro s acc
      simp only [closeMany]
      exact (ih _ _).trans
        (close_pos_sublist s i.ticket i.price i.tick_size i.tick_value i.contract_size)

theorem closeMany_closed_mono (items : List CloseItem) :
    ∀ (s : SimState) (acc : List ClosedTicket) {q : Position},
      q ∈ s.closed_positions → q ∈ (closeMany s acc items).1.closed_positions := by
  induction items with
  | nil => intro s acc q h; exact h
  | cons i rest ih =>
      intro s acc q h
      simp only [closeMany]
      exact ih _ _ (close_closed_mono s i.ticket i.price i.tick_size i.tick_value
        i.contract_size h)

theorem closeMany_spec (items : List CloseItem) :
    ∀ (s : SimState) (acc : List ClosedTicket),
      (ticketsOf s.positions).Nodup →
      (items.map CloseItem.ticket).Nodup →
      (∀ i ∈ items, i.ticket ∈ ticketsOf s.positions) →
      (closeMany s acc items).2 =
        acc ++ items.map (fun i => { ticket := i.ticket, reason := i.reason }) ∧
      ∀ i ∈ items,
        i.ticket ∉ ticketsOf (closeMany s acc items).1.positions ∧
        ∃ q ∈ (closeMany s acc items).1.closed_positions,
          q.ticket = i.ticket ∧ q.close_price = some i.price := by
  induction items with
  | nil =>
      intro s acc _ _ _
      exact ⟨by simp [closeMany], by simp⟩
  | cons i rest ih =>
      intro s acc hnd hitems hsub
      have hmem : i.ticket ∈ ticketsOf s.positions := hsub i (by simp)
      obtain ⟨p, prest, hpop, hpt, hperm, hsubl, heq⟩ :=
        close_position_found i.price i.tick_size i.tick_value i.contract_size hmem
      have htpos : (ticketsOf s.positions).Perm (p.ticket :: ticketsOf prest) := by
        simpa [ticketsOf] using hperm.map Position.ticket
      have hnd' : (p.ticket :: ticketsOf prest).Nodup := htpos.nodup hnd
      have hpnotin : p.ticket ∉ ticketsOf prest := (List.nodup_cons.mp hnd').1
      have hndrest : (ticketsOf prest).Nodup := (List.nodup_cons.mp hnd').2
      have hitems2 : i.ticket ∉ rest.map CloseItem.ticket ∧
          (rest.map CloseItem.ticket).Nodup :=
        List.nodup_cons.mp (by simpa using hitems)
      have hsub' : ∀ j ∈ rest, j.ticket ∈ ticketsOf prest := by
        intro j hj
        have hj1 : j.ticket ∈ ticketsOf s.positions := hsub j (by simp [hj])
        rcases List.mem_cons.mp (htpos.mem_iff.mp hj1) with hjeq | h3
        · exact absurd (List.mem_map.mpr ⟨j, hj, by rw [hjeq, hpt]⟩) hitems2.1
        · exact h3
      simp only [closeMany, heq, ApiResult.isSuccess, if_true]
      obtain ⟨hout, hall⟩ := ih
        { s with positions := prest,
                 closed_positions := s.closed_positions ++
                   [closedAt p i.price i.tick_size i.tick_value i.contract_size] }
        (acc ++ [{ ticket := i.ticket, reason := i.reason }])
        hndrest hitems2.2 hsub'
      refine ⟨?_, ?_⟩
      · rw [hout]
        simp
      · intro j hj
        rcases List.mem_cons.mp hj with rfl | hj2
        · constructor
          · intro hmemf
            have h2 : j.ticket ∈ ticketsOf prest :=
              ((closeMany_pos_sublist rest _ _).map Position.ticket).subset hmemf
            rw [← hpt] at h2
            exact hpnotin h2
          · refine ⟨closedAt p j.price j.tick_size j.tick_value j.contract_size,
              ?_, hpt, rfl⟩
            exact closeMany_closed_mono rest _ _
              (List.mem_append_right _ (List.mem_singleton.mpr rfl))
        · exact hall j hj2

theorem hitItem_some {m : Option (List (String × SymbolInfo))} {p : Position}
    {i : CloseItem} (h : hitItem m p = some i) :
    i.ticket = p.ticket ∧ i.price = p.current_price ∧
      shouldCloseReason p = some i.reason := by
  rcases hr : shouldCloseReason p with _ | r
  · simp [hitItem, hr] at h
  · simp only [hitItem, hr, Option.map_some', Option.some.injEq] at h
    subst h
    exact ⟨rfl, rfl, rfl⟩

theorem hitItem_of_reason {p : Position} {r : String}
    (m : Option (List (String × SymbolInfo))) (h : shouldCloseReason p = some r) :
    ∃ i, hitItem m p = some i ∧ i.ticket = p.ticket ∧ i.price = p.current_price ∧
      i.reason = r := by
  exact ⟨{ ticket := p.ticket, price := p.current_price, reason := r,
           tick_size := (((m.getD []).lookup p.symbol).getD SymbolInfo.empty).tick_size,
           tick_value := (((m.getD []).lookup p.symbol).getD SymbolInfo.empty).tick_value,
           contract_size :=
             (((m.getD []).lookup p.symbol).getD SymbolInfo.empty).contract_size },
         by simp [hitItem, h], rfl, rfl, rfl⟩

theorem collectHits_tickets_sublist (s : SimState)
    (m : Option (List (String × SymbolInfo))) :
    ((collectHits s m).map CloseItem.ticket).Sublist (ticketsOf s.positions) := by
  show ((s.positions.filterMap (hitItem m)).map CloseItem.ticket).Sublist
    (ticketsOf s.positions)
  induction s.positions with
  | nil => simp
  | cons p ps ih =>
      rcases hi : hitItem m p with _ | i
      · simp only [List.filterMap_cons, hi, ticketsOf, List.map_cons]
        exact ih.cons _
      · simp only [List.filterMap_cons, hi, List.map_cons, ticketsOf]
        rw [(hitItem_some hi).1]
        exact List.Sublist.cons₂ _ ih

theorem scan_hit (s : SimState) (m : Option (List (String × SymbolInfo)))
    (p : Position) (r : String) (hnd : (ticketsOf s.positions).Nodup)
    (hp : p ∈ s.positions) (hr : shouldCloseReason p = some r) :
    ({ ticket := p.ticket, reason := r } : ClosedTicket) ∈ (check_tp_sl_hits s m).2 ∧
    p.ticket ∉ ticketsOf (check_tp_sl_hits s m).1.positions ∧
    (∃ q ∈ (check_tp_sl_hits s m).1.closed_positions,
      q.ticket = p.ticket ∧ q.close_price = some p.current_price) ∧
    ∀ r', ({ ticket := p.ticket, reason := r' } : ClosedTicket) ∈ (check_tp_sl_hits s m).2 →
      r' = r := by
  have hsubl := collectHits_tickets_sublist s m
  have hitemsnd : ((collectHits s m).map CloseItem.ticket).Nodup := hsubl.nodup hnd
  have hsub : ∀ i ∈ collectHits s m, i.ticket ∈ ticketsOf s.positions := fun i hi =>
    hsubl.subset (List.mem_map_of_mem _ hi)
  obtain ⟨hout, hall⟩ := closeMany_spec (collectHits s m) s [] hnd hitemsnd hsub
  obtain ⟨i, hi, hit, hipr, hirea⟩ := hitItem_of_reason m hr
  have himem : i ∈ collectHits s m := List.mem_filterMap.mpr ⟨p, hp, hi⟩
  refine ⟨?_, ?_, ?_, ?_⟩
  · show _ ∈ (closeMany s [] (collectHits s m)).2
    rw [hout]
    simp only [List.nil_append]
    exact List.mem_map.mpr ⟨i, himem, by rw [hit, hirea]⟩
  · have := (hall i himem).1
    rwa [hit] at this
  · obtain ⟨q, hq, hqt, hqp⟩ := (hall i himem).2
    exact ⟨q, hq, by rw [hqt, hit], by rw [hqp, hipr]⟩
  · intro r' hr'
    have hr'2 : ({ ticket := p.ticket, reason := r' } : ClosedTicket) ∈
        (closeMany s [] (collectHits s m)).2 := hr'
    rw [hout] at hr'2
    simp only [List.nil_append] at hr'2
    obtain ⟨j, hj, hjeq⟩ := List.mem_map.mp hr'2
    have hjt : j.ticket = p.ticket := congrArg ClosedTicket.ticket hjeq
    have hjr : j.reason = r' := congrArg ClosedTicket.reason hjeq
    have hji : j = i := List.inj_on_of_nodup_map hitemsnd hj himem (by rw [hjt, hit])
    rw [← hjr, hji, hirea]

/-- Evaluation fact used when discharging `'BUY'` comparisons. -/
theorem strUpper_BUY : strUpper "BUY" = "BUY" := by decide

/-! ### The claims -/

/-- Claim C1: in every reachable ledger state the set of open tickets and
the set of closed tickets are disjoint, and `close_position` on an open
ticket removes it from the open collection and appends it to the closed
history exactly once. -/
theorem C1_open_closed_disjoint (s : SimState) (hs : Reachable s) :
    (∀ t ∈ ticketsOf s.positions, t ∉ ticketsOf s.closed_positions) ∧
    ∀ (ticket : Nat) (close_price : ℚ) (tick_size tick_value contract_size : Option ℚ),
      ticket ∈ ticketsOf s.positions →
      ticket ∉ ticketsOf
        (close_position s ticket close_price tick_size tick_value contract_size).1.positions ∧
      (ticketsOf (close_position s ticket close_price tick_size tick_value
        contract_size).1.closed_positions).count ticket = 1 := by
  obtain ⟨hnd, hlt⟩ := reachable_wellFormed hs
  have hdisj := List.disjoint_of_nodup_append hnd
  constructor
  · exact fun t h1 h2 => hdisj h1 h2
  · intro t cp ts tv cs hmem
    obtain ⟨p, rest, hpop, hpt, hperm, hsubl, heq⟩ := close_position_found cp ts tv cs hmem
    have htpos : (ticketsOf s.positions).Perm (p.ticket :: ticketsOf rest) := by
      simpa [ticketsOf] using hperm.map Position.ticket
    have hnd2 := htpos.nodup hnd.of_append_left
    rw [heq]
    constructor
    · show t ∉ ticketsOf rest
      have hni := (List.nodup_cons.mp hnd2).1
      rwa [hpt] at hni
    · show (ticketsOf (s.closed_positions ++ [closedAt p cp ts tv cs])).count t = 1
      have hc0 : (ticketsOf s.closed_positions).count t = 0 :=
        List.count_eq_zero.mpr fun hc => hdisj hmem hc
      have h1 : ticketsOf [closedAt p cp ts tv cs] = [t] := by
        simp [ticketsOf, closedAt, hpt]
      rw [ticketsOf_append, List.count_append, hc0, h1]
      simp

/-- Witness for C1: one position opened from the initial state, then
closed. -/
theorem C1_witness :
    (∀ t ∈ ticketsOf stateC1.positions, t ∉ ticketsOf stateC1.closed_positions) ∧
    1000000 ∉ ticketsOf (close_position stateC1 1000000 (12/10) none none none).1.positions ∧
    (ticketsOf (close_position stateC1 1000000 (12/10)
      none none none).1.closed_positions).count 1000000 = 1 := by
  have h := C1_open_closed_disjoint stateC1 ⟨opsC1, rfl⟩
  exact ⟨h.1, h.2 1000000 (12/10) none none none (by decide)⟩

/-- Claim C2: across any sequence of API calls containing no `reset`,
the tickets handed out by the `open` calls are strictly increasing (and
hence never repeat). -/
theorem C2_tickets_strictly_increasing (s : SimState) (ops : List Op)
    (h : ∀ op ∈ ops, op.isReset = false) :
    (ticketsIssued s ops).Pairwise (· < ·) :=
  ticketsIssued_pairwise ops s h

/-- Witness for C2: open, close, open again from the initial state. -/
theorem C2_witness :
    ticketsIssued initState opsC2 = [1000000, 1000001] ∧
    (ticketsIssued initState opsC2).Pairwise (· < ·) :=
  ⟨by decide, C2_tickets_strictly_increasing initState opsC2 (by decide)⟩

/-- Claim C3: the take-profit branch of `check_tp_sl_hits` is tested
before the stop-loss `elif`, so whenever a position's take-profit
condition holds — in particular when its stop-loss condition holds in
the same scan — the position is closed with reason `Take Profit` and
never `Stop Loss`. -/
theorem C3_tp_priority (s : SimState) (m : Option (List (String × SymbolInfo)))
    (p : Position) (hnd : (ticketsOf s.positions).Nodup) (hp : p ∈ s.positions)
    (htp : 0 < p.tp) (_hsl : 0 < p.sl)
    (hcross : (p.type_ = "BUY" ∧ p.tp ≤ p.current_price) ∨
      (p.type_ ≠ "BUY" ∧ p.current_price ≤ p.tp)) :
    ({ ticket := p.ticket, reason := "Take Profit" } : ClosedTicket) ∈
      (check_tp_sl_hits s m).2 ∧
    ∀ r, ({ ticket := p.ticket, reason := r } : ClosedTicket) ∈ (check_tp_sl_hits s m).2 →
      r = "Take Profit" := by
  have hr : shouldCloseReason p = some "Take Profit" := by
    rcases hcross with ⟨hb, h1⟩ | ⟨hb, h1⟩
    · simp [shouldCloseReason, hb, htp, h1]
    · simp [shouldCloseReason, hb, htp, h1]
  obtain ⟨h1, _, _, h4⟩ := scan_hit s m p "Take Profit" hnd hp hr
  exact ⟨h1, h4⟩

/-- Witness for C3: the spec's tie-break example — BUY at 1.1000 with
tp 1.1050, sl 1.1080, current price 1.1090 — closes as `Take Profit`. -/
theorem C3_witness :
    ({ ticket := 1000000, reason := "Take Profit" } : ClosedTicket) ∈
      (check_tp_sl_hits stateC3 none).2 :=
  (C3_tp_priority stateC3 none posC3 (by simp [stateC3, ticketsOf])
    (List.mem_singleton.mpr rfl) (by norm_num [posC3]) (by norm_num [posC3])
    (Or.inl ⟨rfl, by norm_num [posC3]⟩)).1

/-- Claim C4: the tick-based profit computed by
`update_position_prices` is sign-correct for positions with positive
volume and positive tick parameters: positive iff the price moved in the
position's favour. -/
theorem C4_profit_sign (s : SimState) (symbol : String)
    (current_price contract_size tick_value tick_size : ℚ) (p : Position)
    (hp : p ∈ s.positions) (hsym : p.symbol = symbol) (hv : 0 < p.volume)
    (hts : 0 < tick_size) (htv : 0 < tick_value) :
    updateOne symbol current_price contract_size tick_value tick_size p ∈
      (update_position_prices s symbol current_price contract_size tick_value
        tick_size).positions ∧
    (0 < (updateOne symbol current_price contract_size tick_value tick_size p).profit ↔
      (if p.type_ = "BUY" then p.open_price < current_price
       else current_price < p.open_price)) := by
  refine ⟨List.mem_map_of_mem _ hp, ?_⟩
  have hprofit : (updateOne symbol current_price contract_size tick_value tick_size p).profit =
      ((if p.type_ = "BUY" then current_price - p.open_price
        else p.open_price - current_price) / tick_size) * p.volume * tick_value := by
    simp [updateOne, hsym, hts]
  have key : ∀ d : ℚ, 0 < (d / tick_size) * p.volume * tick_value ↔ 0 < d := by
    intro d
    constructor
    · intro hpos
      rcases lt_or_le 0 d with hd | hd
      · exact hd
      · exfalso
        have h1 : d / tick_size ≤ 0 := div_nonpos_iff.mpr (Or.inr ⟨hd, hts.le⟩)
        have h2 : (d / tick_size) * p.volume ≤ 0 :=
          mul_nonpos_iff.mpr (Or.inr ⟨h1, hv.le⟩)
        have h3 : (d / tick_size) * p.volume * tick_value ≤ 0 :=
          mul_nonpos_iff.mpr (Or.inr ⟨h2, htv.le⟩)
        linarith
    · intro hd
      exact mul_pos (mul_pos (div_pos hd hts) hv) htv
  rw [hprofit, key]
  by_cases hb : p.type_ = "BUY"
  · simp [hb, sub_pos]
  · simp [hb, sub_pos]

/-- A one-position ledger for the C4 witness. -/
theorem C4_witness :
    updateOne "EURUSD" 2 0 1 1 posC4 ∈
      (update_position_prices stateC4 "EURUSD" 2 0 1 1).positions ∧
    (0 < (updateOne "EURUSD" 2 0 1 1 posC4).profit ↔
      (if posC4.type_ = "BUY" then posC4.open_price < 2
       else (2 : ℚ) < posC4.open_price)) :=
  C4_profit_sign stateC4 "EURUSD" 2 0 1 1 posC4 (List.mem_singleton.mpr rfl) rfl
    (by norm_num [posC4]) (by norm_num) (by norm_num)

/-- Claim C5: `close_position` on a ticket absent from the open set
returns the `Position not found` failure and leaves the whole state —
in particular the closed-history length — unchanged. -/
theorem C5_close_absent (s : SimState) (ticket : Nat) (close_price : ℚ)
    (tick_size tick_value contract_size : Option ℚ)
    (h : ticket ∉ ticketsOf s.positions) :
    close_position s ticket close_price tick_size tick_value contract_size =
      (s, ApiResult.failure "Position not found") ∧
    (close_position s ticket close_price tick_size tick_value
      contract_size).1.closed_positions.length = s.closed_positions.length := by
  have he := close_position_not_found close_price tick_size tick_value contract_size h
  exact ⟨he, by rw [he]⟩

/-- Witness for C5: closing ticket 999 on the empty initial ledger. -/
theorem C5_witness :
    close_position initState 999 1 none none none =
      (initState, ApiResult.failure "Position not found") :=
  (C5_close_absent initState 999 1 none none none (by decide)).1

/-- Claim C6 fails on the code: `open_position` performs no volume
validation, so a non-positive volume is not rejected — volume `-1` is
accepted, reported as success, and mutates the ledger. -/
theorem C6_counterexample :
    (open_position initState "EURUSD" "BUY" (-1) 1 0 0).2.success = true ∧
    (open_position initState "EURUSD" "BUY" (-1) 1 0 0).1.positions.length = 1 :=
  ⟨rfl, rfl⟩

/-- Claim C6 (amended): `open_position` never fails for any input at
all — non-positive volume included: it allocates the next ticket,
appends a new open position with `profit = 0` (with `sl`/`tp` stored
verbatim, `0` meaning unset), leaves the closed history alone, and
increments the ticket counter. -/
theorem C6_amended (s : SimState) (symbol order_type : String)
    (volume open_price sl tp : ℚ) :
    (open_position s symbol order_type volume open_price sl tp).2 =
      { success := true, ticket := s.next_ticket, price := open_price,
        message := "Simulated order executed successfully" } ∧
    (open_position s symbol order_type volume open_price sl tp).1.positions =
      s.positions ++ [newPosition s.next_ticket symbol order_type volume open_price sl tp] ∧
    (newPosition s.next_ticket symbol order_type volume open_price sl tp).profit = 0 ∧
    (newPosition s.next_ticket symbol order_type volume open_price sl tp).sl = sl ∧
    (newPosition s.next_ticket symbol order_type volume open_price sl tp).tp = tp ∧
    (open_position s symbol order_type volume open_price sl tp).1.closed_positions =
      s.closed_positions ∧
    (open_position s symbol order_type volume open_price sl tp).1.next_ticket =
      s.next_ticket + 1 :=
  ⟨rfl, rfl, rfl, rfl, rfl, rfl, rfl⟩

/-- Claim C7 fails on the code: `get_account_summary` rounds to two
decimals, so the reported balance differs from
`initial_balance + Σ(closed.profit)` when that sum needs more than two
decimals — here a closed profit of `0.006` makes the reported balance
`10000.01`. -/
theorem C7_counterexample :
    (get_account_summary stateC7).balance ≠
      stateC7.initial_balance + (stateC7.closed_positions.map Position.profit).sum := by
  norm_num [stateC7, opsC7, runOps, applyOp, open_position, get_next_ticket,
    newPosition, strUpper_BUY, close_position, popTicket, closedAt, closeProfit,
    initState, get_account_summary, round2, roundHalfEven]

/-- Claim C7 (amended): `get_account_summary` reports the §3 formulas
rounded to two decimals (banker's rounding): balance, equity, open
profit, `margin = 0`, `free_margin` equal to the (rounded) equity; and
after `reset_simulator(5000)` it reports balance 5000, equity 5000,
profit 0 exactly. -/
theorem C7_amended (s : SimState) :
    get_account_summary s =
      { balance := round2 (s.initial_balance + (s.closed_positions.map Position.profit).sum),
        equity := round2 (s.initial_balance + (s.closed_positions.map Position.profit).sum +
          (s.positions.map Position.profit).sum),
        profit := round2 ((s.positions.map Position.profit).sum),
        margin := 0,
        free_margin := round2 (s.initial_balance +
          (s.closed_positions.map Position.profit).sum +
          (s.positions.map Position.profit).sum),
        leverage := 100, currency := "USD" } ∧
    get_account_summary (reset_simulator 5000) =
      { balance := 5000, equity := 5000, profit := 0, margin := 0,
        free_margin := 5000, leverage := 100, currency := "USD" } := by
  refine ⟨rfl, ?_⟩
  have hr : round2 5000 = 5000 := by norm_num [round2, roundHalfEven]
  have hz : round2 0 = 0 := by norm_num [round2, roundHalfEven]
  simp [get_account_summary, reset_simulator, hr, hz]

/-- Claim C8: the persistence round-trip law — loading what
`save_positions` wrote restores the whole aggregate exactly, and hence
any number of save/load cycles is the identity on ledger states. -/
theorem C8_save_load_round_trip (s : SimState) (n : Nat) :
    load_positions s (FileState.good (some (recordToStored (save_positions s)))) = s ∧
    saveLoad^[n] s = s := by
  refine ⟨rfl, ?_⟩
  induction n with
  | zero => rfl
  | succ k ih =>
      rw [Function.iterate_succ_apply]
      have h1 : saveLoad s = s := rfl
      rw [h1, ih]

/-- Claim C9 fails on the code: a corrupt/unreadable settings file is
caught inside `load_positions`, which then proceeds with empty position
lists — exactly the state a missing file produces — instead of raising
any persistence error; real data behind an unreadable file is silently
masked by an empty ledger. -/
theorem C9_counterexample :
    load_positions initState FileState.corrupt = initState ∧
    load_positions initState FileState.corrupt =
      load_positions initState FileState.missing :=
  ⟨rfl, rfl⟩

/-- Claim C9 (amended): a missing file leaves the constructor's default
empty state in place; a corrupt file is caught and handled by clearing
both position lists (keeping `next_ticket` and `initial_balance` as
already set in memory) with no error signalled to the caller; a file
without a `simulator` section loads the documented defaults. -/
theorem C9_amended (s : SimState) :
    load_positions s FileState.missing = s ∧
    load_positions s FileState.corrupt =
      { s with positions := [], closed_positions := [] } ∧
    load_positions s (FileState.good none) =
      { positions := [], closed_positions := [], next_ticket := 1000000,
        initial_balance := 10000 } :=
  ⟨rfl, rfl, rfl⟩

/-- Claim C10: `open_position` initializes `current_price` to
`open_price` with `profit = 0`, so a `check_tp_sl_hits` scan that runs
before any price update evaluates TP/SL against `open_price`; a BUY
opened with `0 < tp ≤ open_price` is closed immediately by the next
scan, at `open_price`, with reason `Take Profit`. -/
theorem C10_open_price_scan (s : SimState) (symbol order_type : String)
    (volume open_price sl tp : ℚ) (m : Option (List (String × SymbolInfo)))
    (hwf : WellFormed s) (hbuy : strUpper order_type = "BUY")
    (htp : 0 < tp) (hhit : tp ≤ open_price) :
    (newPosition s.next_ticket symbol order_type volume open_price sl tp).current_price =
      open_price ∧
    (newPosition s.next_ticket symbol order_type volume open_price sl tp).profit = 0 ∧
    ({ ticket := s.next_ticket, reason := "Take Profit" } : ClosedTicket) ∈
      (check_tp_sl_hits (open_position s symbol order_type volume open_price sl tp).1 m).2 ∧
    ∃ q ∈ (check_tp_sl_hits (open_position s symbol order_type volume open_price sl
        tp).1 m).1.closed_positions,
      q.ticket = s.next_ticket ∧ q.close_price = some open_price := by
  obtain ⟨hnda, _⟩ := wf_open s symbol order_type volume open_price sl tp hwf
  have hnd1 : (ticketsOf (open_position s symbol order_type volume open_price sl
      tp).1.positions).Nodup := hnda.of_append_left
  have hP : newPosition s.next_ticket symbol order_type volume open_price sl tp ∈
      (open_position s symbol order_type volume open_price sl tp).1.positions := by
    show _ ∈ s.positions ++ [newPosition s.next_ticket symbol order_type volume open_price sl tp]
    exact List.mem_append_right _ (List.mem_singleton.mpr rfl)
  have hr : shouldCloseReason
      (newPosition s.next_ticket symbol order_type volume open_price sl tp) =
      some "Take Profit" := by
    simp [shouldCloseReason, newPosition, hbuy, htp, hhit]
  obtain ⟨h1, _, h3, _⟩ := scan_hit _ m _ "Take Profit" hnd1 hP hr
  exact ⟨rfl, rfl, h1, h3⟩

/-- Witness for C10: a BUY opened at price 2 with `tp = 1` on the
initial ledger is closed by the very next scan. -/
theorem C10_witness :
    ({ ticket := 1000000, reason := "Take Profit" } : ClosedTicket) ∈
      (check_tp_sl_hits (open_position initState "EURUSD" "BUY" 1 2 0 1).1 none).2 :=
  (C10_open_price_scan initState "EURUSD" "BUY" 1 2 0 1 none (by decide) (by decide)
    (by decide) (by decide)).2.2.1

end Sim
